import Mathlib

/-!
Shallow embedding of the order lifecycle and inventory engine of the
instashop-task repository (internal/service/service_impl.go,
internal/repository/repository_impl.go, internal/models,
internal/controller/handler/handler.go, pkg/helpers.go, pkg errors).

The persistent state (`Store`) models the relational tables `products` and
`orders`/`order_items`, plus the fresh-id generator.  A pgx transaction
handle (`Tx`) buffers the rows inserted through it; repository methods that
execute on the pooled connection `r.db` write to the `Store` immediately and
are therefore *not* covered by `WithTransaction`'s rollback — exactly as in
the Go source, where only `repositoryImpl.CreateOrder` receives the `tx`
argument while `GetProductByID`, `UpdateProduct` and `UpdateOrderStatus`
run on the pool.

Prices (Go `float64`) are modelled as rationals; the only price arithmetic
performed by the engine is the per-item accumulation
`total += price * quantity`, which the claims compare against the sum of the
very same products, so no rounding behaviour is observable.
Stock quantities (Go `int`) are modelled as integers.
-/

namespace InstaShop

/-- models.OrderStatus: `pending | confirmed | shipped | delivered | cancelled`. -/
inductive OrderStatus where
  | pending
  | confirmed
  | shipped
  | delivered
  | cancelled
deriving DecidableEq, Repr

/-- Renders an `OrderStatus` the way Go prints the string constant
(used by the `fmt.Errorf("cannot update %s order", ...)` message). -/
def statusText : OrderStatus → String
  | .pending => "pending"
  | .confirmed => "confirmed"
  | .shipped => "shipped"
  | .delivered => "delivered"
  | .cancelled => "cancelled"

/-- The identity of an error value: the sentinel errors of `pkg`
(`errors.New` values compared with `errors.Is`), the anonymous
terminal-state error created by `serviceImpl.UpdateStatus` via
`fmt.Errorf("cannot update %s order", ...)`, and the duplicate-key
constraint violation Postgres raises on an INSERT that breaks a primary
key or unique constraint (SQLSTATE 23505) — each distinct from the
others. -/
inductive ErrKind where
  | notFound
  | insufficientStock
  | unauthorized
  | orderNotPending
  | invalidInput
  | terminalState
  | duplicateKey
deriving DecidableEq, Repr

/-- A Go error value: its sentinel identity (preserved through
`fmt.Errorf("...: %w", err)` wrapping, as `errors.Is` is) and its
message text (extended by each wrap). -/
structure Err where
  kind : ErrKind
  msg : String
deriving DecidableEq, Repr

/-- pkg.ErrNotFound. -/
def errNotFound : Err := ⟨.notFound, "not found"⟩

/-- pkg.ErrInsufficientStock. -/
def errInsufficientStock : Err := ⟨.insufficientStock, "insufficient stock"⟩

/-- pkg.ErrUnauthorized. -/
def errUnauthorized : Err := ⟨.unauthorized, "unauthorized action"⟩

/-- pkg.ErrOrderNotPending. -/
def errOrderNotPending : Err := ⟨.orderNotPending, "order is not in pending status"⟩

/-- pkg.ErrInvalidInput (mapped by the handler to the VALIDATION_ERROR /
bad-request response, i.e. the spec's `ValidationError` kind). -/
def errInvalidInput : Err := ⟨.invalidInput, "invalid input"⟩

/-- The Postgres duplicate-key error (SQLSTATE 23505) surfaced by pgx when
an INSERT violates a primary key or unique constraint, e.g.
`orders_pkey` or `unique_order_product` of the schema. -/
def errDuplicateKey : Err := ⟨.duplicateKey, "duplicate key value violates unique constraint"⟩

/-- `fmt.Errorf("ctx: %w", e)`: prepends context to the message, keeps the
wrapped sentinel identity. -/
def wrap (ctx : String) (e : Err) : Err := ⟨e.kind, ctx ++ ": " ++ e.msg⟩

/-- models.Product (the columns the engine reads/writes). -/
structure Product where
  id : String
  name : String
  description : String
  price : ℚ
  stockQuantity : ℤ
deriving DecidableEq, Repr

/-- models.OrderItem (the columns inserted into `order_items`). -/
structure OrderItem where
  id : String
  orderId : String
  productId : String
  quantity : ℤ
  unitPrice : ℚ
deriving DecidableEq, Repr

/-- models.Order: the `orders` row together with its `order_items` rows. -/
structure Order where
  id : String
  userId : String
  status : OrderStatus
  totalAmount : ℚ
  items : List OrderItem
deriving DecidableEq, Repr

/-- The persistent state: `products` and `orders` tables, plus the state of
the fresh-id generator (`pkg.GenerateID`, i.e. ksuid generation, modelled
by a counter that yields a new identifier on every call). -/
structure Store where
  products : List Product
  orders : List Order
  nextId : Nat
deriving DecidableEq, Repr

/-- pkg.GenerateID (`ksuid.New().String()`): a fresh, never-repeating,
non-empty identifier.  Modelled as the string of `n+1` letters `k` for the
`n`-th call, which is injective in `n` (by length) and never empty. -/
def generateID (n : Nat) : String := String.mk (List.replicate (n + 1) 'k')

/-- A pgx transaction handle: buffers the order rows inserted through it.
Repository methods that execute on the pooled connection bypass it and hit
the `Store` directly. -/
structure Tx where
  insertedOrders : List Order
deriving DecidableEq, Repr

/-- repositoryImpl.GetProductByID: `SELECT ... FROM products WHERE id = $1`
on the pool; `pkg.ErrNotFound` when no row matches. -/
def repositoryImpl.GetProductByID (s : Store) (pid : String) : Except Err Product :=
  match s.products.find? (fun p => p.id == pid) with
  | some p => .ok p
  | none => .error errNotFound

/-- repositoryImpl.UpdateProduct: `UPDATE products SET name, description,
price, stock_quantity WHERE id = $6` on the pool — a full-row update of
every matching row; `pkg.ErrNotFound` when no row matches. -/
def repositoryImpl.UpdateProduct (s : Store) (p : Product) : Except Err Store :=
  if s.products.any (fun q => q.id == p.id) then
    .ok { s with products := s.products.map (fun q => if q.id == p.id then p else q) }
  else
    .error errNotFound

/-- repositoryImpl.UpdateOrderStatus: `UPDATE orders SET status WHERE id = $3`
on the pool; `pkg.ErrNotFound` when no row matches. -/
def repositoryImpl.UpdateOrderStatus (s : Store) (oid : String) (st : OrderStatus) :
    Except Err Store :=
  if s.orders.any (fun o => o.id == oid) then
    .ok { s with orders := s.orders.map (fun o => if o.id == oid then { o with status := st } else o) }
  else
    .error errNotFound

/-- The item rows of an order that survive the
`JOIN products p ON p.id = i.product_id` of repositoryImpl.GetOrderByID —
an inner join, so an item row whose product no longer exists is silently
dropped from the result. -/
def joinedItems (s : Store) (o : Order) : List OrderItem :=
  o.items.filter (fun it => s.products.any (fun p => p.id == it.productId))

/-- repositoryImpl.GetOrderByID: selects the order row, then its items
joined with their products (see `joinedItems`). -/
def repositoryImpl.GetOrderByID (s : Store) (oid : String) : Except Err Order :=
  match s.orders.find? (fun o => o.id == oid) with
  | some o => .ok { o with items := joinedItems s o }
  | none => .error errNotFound

/-- The pure id-assignment skeleton of the item-insert loop of
repositoryImpl.CreateOrder: each item receives `item.ID = pkg.GenerateID()`
and `item.OrderID = order.ID`.  Returns the rewritten items and the
advanced generator counter; used to state what the insert loop produces
when it succeeds. -/
def assignItemIds (c : Nat) (oid : String) : List OrderItem → List OrderItem × Nat
  | [] => ([], c)
  | it :: rest =>
      let it' := { it with id := generateID c, orderId := oid }
      let (rest', c') := assignItemIds (c + 1) oid rest
      (it' :: rest', c')

/-- All `order_items` rows held by a list of orders. -/
def allOrderItems (orders : List Order) : List OrderItem := orders.flatMap (fun o => o.items)

/-- The per-item insert loop of repositoryImpl.CreateOrder: each item
receives `item.ID = pkg.GenerateID()` (a fresh ksuid, so the order_items
primary key itself never collides) and `item.OrderID = order.ID`, and its
INSERT fails with the duplicate-key error when the row breaks the schema's
`UNIQUE(order_id, product_id)` constraint against the rows already visible
(`existing`) or inserted earlier in this loop.  The generator advances for
every attempted item; pgx wraps the violation, `fmt.Errorf("create order
item: %w", err)` adds the context. -/
def repositoryImpl.createOrderItemsLoop (oid : String) :
    List OrderItem → List OrderItem → Nat → Except Err (List OrderItem) × Nat
  | _, [], c => (.ok [], c)
  | existing, it :: rest, c =>
      let it' := { it with id := generateID c, orderId := oid }
      if existing.any (fun e0 => e0.orderId == it'.orderId && e0.productId == it'.productId) then
        (.error (wrap "create order item" errDuplicateKey), c + 1)
      else
        match repositoryImpl.createOrderItemsLoop oid (existing ++ [it']) rest (c + 1) with
        | (.error e, c') => (.error e, c')
        | (.ok rest', c') => (.ok (it' :: rest'), c')

/-- repositoryImpl.CreateOrder: inserts the order row and its item rows
*through the transaction handle* (the only repository method that takes
`tx`).  The order INSERT fails with a duplicate-key error when a row with
the same id already exists — the schema declares `orders.id TEXT PRIMARY
KEY` — among the committed rows or the rows this transaction already
buffered; `fmt.Errorf("create order: %w", err)` adds the context.  On
success the item rows are inserted one at a time (see
`repositoryImpl.createOrderItemsLoop`); the buffered rows reach the
`orders` table only when `WithTransaction` commits, while the id generator
advances immediately. -/
def repositoryImpl.CreateOrder (s : Store) (tx : Tx) (order : Order) :
    Except Err (Order × Tx) × Store :=
  if (s.orders ++ tx.insertedOrders).any (fun o => o.id == order.id) then
    (.error (wrap "create order" errDuplicateKey), s)
  else
    match repositoryImpl.createOrderItemsLoop order.id
        (allOrderItems (s.orders ++ tx.insertedOrders)) order.items s.nextId with
    | (.error e, c') => (.error e, { s with nextId := c' })
    | (.ok items', c') =>
        let order' := { order with items := items' }
        (.ok (order', { tx with insertedOrders := tx.insertedOrders ++ [order'] }),
         { s with nextId := c' })

/-- repositoryImpl.WithTransaction: begins a transaction, runs the closure,
rolls back on error and commits on success.  Rollback discards only the
rows buffered in the `Tx`; every write the closure performed through
pool-bound repository methods has already reached the `Store` and persists
either way. -/
def repositoryImpl.WithTransaction (s : Store)
    (fn : Store → Tx → Except Err Unit × Store × Tx) : Except Err Unit × Store :=
  match fn s ⟨[]⟩ with
  | (.error e, s', _) => (.error e, s')
  | (.ok _, s', tx') => (.ok (), { s' with orders := s'.orders ++ tx'.insertedOrders })

/-- models.CreateOrderItemRequest. -/
structure CreateOrderItemRequest where
  productId : String
  quantity : ℤ
deriving DecidableEq, Repr

/-- models.CreateOrderRequest; `items = none` models a JSON body whose
`items` field is absent or null (a nil Go slice). -/
structure CreateOrderRequest where
  items : Option (List CreateOrderItemRequest)
deriving DecidableEq, Repr

/-- The per-item loop of serviceImpl.CreateOrder: fetch the product, check
stock, decrement and persist the product (a pool write, effective
immediately), append the resolved item and accumulate the total. -/
def serviceImpl.createOrderLoop :
    List CreateOrderItemRequest → Store → List OrderItem → ℚ →
    Except Err (List OrderItem × ℚ) × Store
  | [], s, acc, total => (.ok (acc, total), s)
  | it :: rest, s, acc, total =>
      match repositoryImpl.GetProductByID s it.productId with
      | .error e => (.error (wrap ("getting product " ++ it.productId) e), s)
      | .ok product =>
          if product.stockQuantity < it.quantity then
            (.error errInsufficientStock, s)
          else
            let product' := { product with stockQuantity := product.stockQuantity - it.quantity }
            match repositoryImpl.UpdateProduct s product' with
            | .error e => (.error (wrap "updating product stock" e), s)
            | .ok s' =>
                let item : OrderItem :=
                  { id := "", orderId := "", productId := product.id,
                    quantity := it.quantity, unitPrice := product.price }
                serviceImpl.createOrderLoop rest s' (acc ++ [item])
                  (total + product.price * it.quantity)

/-- serviceImpl.CreateOrder: runs the item loop and the order insert inside
`WithTransaction`.  Only the order insert goes through `tx`; the stock
updates of the loop are pool writes. -/
def serviceImpl.CreateOrder (s : Store) (userId : String)
    (req : List CreateOrderItemRequest) : Except Err Unit × Store :=
  repositoryImpl.WithTransaction s (fun s0 tx =>
    match serviceImpl.createOrderLoop req s0 [] 0 with
    | (.error e, s1) => (.error e, s1, tx)
    | (.ok (items, total), s1) =>
        let order : Order :=
          { id := "", userId := userId, status := .pending,
            totalAmount := total, items := items }
        match repositoryImpl.CreateOrder s1 tx order with
        | (.error e, s2) => (.error (wrap "creating order" e), s2, tx)
        | (.ok (_, tx'), s2) => (.ok (), s2, tx'))

/-- The stock-restoration loop of serviceImpl.CancelOrder: for each item of
the fetched order, fetch the product and persist it with
`StockQuantity += item.Quantity` (pool writes, effective immediately). -/
def serviceImpl.restoreLoop : List OrderItem → Store → Except Err Unit × Store
  | [], s => (.ok (), s)
  | it :: rest, s =>
      match repositoryImpl.GetProductByID s it.productId with
      | .error e => (.error (wrap "getting product" e), s)
      | .ok product =>
          let product' := { product with stockQuantity := product.stockQuantity + it.quantity }
          match repositoryImpl.UpdateProduct s product' with
          | .error e => (.error (wrap "restoring product stock" e), s)
          | .ok s' => serviceImpl.restoreLoop rest s'

/-- The closure serviceImpl.CancelOrder passes to `WithTransaction`,
capturing the previously fetched order: set the order status to `cancelled`
and restore each item's stock.  Both writes go through pool-bound
repository methods, so they bypass `tx`. -/
def serviceImpl.cancelOrderTx (oid : String) (order : Order) (s : Store) (tx : Tx) :
    Except Err Unit × Store × Tx :=
  match repositoryImpl.UpdateOrderStatus s oid .cancelled with
  | .error e => (.error (wrap "updating order status" e), s, tx)
  | .ok s1 =>
      match serviceImpl.restoreLoop order.items s1 with
      | (.error e, s2) => (.error e, s2, tx)
      | (.ok _, s2) => (.ok (), s2, tx)

/-- serviceImpl.CancelOrder: fetch the order, check ownership and pending
status, then run the cancellation closure inside `WithTransaction`. -/
def serviceImpl.CancelOrder (s : Store) (oid : String) (userId : String) :
    Except Err Unit × Store :=
  match repositoryImpl.GetOrderByID s oid with
  | .error e => (.error (wrap "getting order" e), s)
  | .ok order =>
      if order.userId != userId then
        (.error errUnauthorized, s)
      else if order.status != .pending then
        (.error errOrderNotPending, s)
      else
        repositoryImpl.WithTransaction s (serviceImpl.cancelOrderTx oid order)

/-- serviceImpl.UpdateStatus: fetch the order; refuse with the anonymous
`fmt.Errorf("cannot update %s order", order.Status)` error when the current
status is `cancelled` or `delivered`; otherwise persist the new status
unconditionally. -/
def serviceImpl.UpdateStatus (s : Store) (oid : String) (st : OrderStatus) :
    Except Err Unit × Store :=
  match repositoryImpl.GetOrderByID s oid with
  | .error e => (.error (wrap "getting order" e), s)
  | .ok order =>
      if order.status = .cancelled ∨ order.status = .delivered then
        (.error ⟨.terminalState, "cannot update " ++ statusText order.status ++ " order"⟩, s)
      else
        match repositoryImpl.UpdateOrderStatus s oid st with
        | .error e => (.error (wrap "updating order status" e), s)
        | .ok s' => (.ok (), s')

/-- models.CreateProductRequest. -/
structure CreateProductRequest where
  name : String
  description : String
  price : ℚ
  stockQuantity : ℤ
deriving DecidableEq, Repr

/-- serviceImpl.UpdateProduct: a direct catalog edit (admin), a full-row
update of the product. -/
def serviceImpl.UpdateProduct (s : Store) (id : String) (req : CreateProductRequest) :
    Except Err Product × Store :=
  let product : Product :=
    { id := id, name := req.name, description := req.description,
      price := req.price, stockQuantity := req.stockQuantity }
  match repositoryImpl.UpdateProduct s product with
  | .error e => (.error (wrap "updating product" e), s)
  | .ok s' => (.ok product, s')

/-- The sum of `quantity * unit_price` over a list of order items (the
spec's total-consistency expression). -/
def sumItems (l : List OrderItem) : ℚ := (l.map (fun it => it.unitPrice * (it.quantity : ℚ))).sum

/-- The gin binding validation of `CreateOrderRequest`
(`binding:"required,dive"` on Items; `required` on ProductID;
`required,gt=0` on Quantity).  go-playground/validator's `required` on a
slice only checks non-nil, so a present-but-empty items array passes; each
element needs a non-empty product id and a positive quantity. -/
def bindCreateOrder : CreateOrderRequest → Bool
  | ⟨none⟩ => false
  | ⟨some items⟩ => items.all (fun it => it.productId != "" && decide (0 < it.quantity))

/-- handlerImpl.CreateOrder: bind/validate the request (answering
`pkg.ErrInvalidInput` on failure), then call the service with the bound
request. -/
def handlerImpl.CreateOrder (s : Store) (userId : String) (req : CreateOrderRequest) :
    Except Err Unit × Store :=
  if bindCreateOrder req then
    serviceImpl.CreateOrder s userId (req.items.getD [])
  else
    (.error errInvalidInput, s)

/-- Stock non-negativity: every product row has `stock_quantity >= 0`. -/
def stocksNonneg (s : Store) : Prop := ∀ p ∈ s.products, 0 ≤ p.stockQuantity

/-- Every order-item row has a non-negative quantity (the data model demands
`quantity > 0` of every persisted item). -/
def ordersItemsNonneg (s : Store) : Prop := ∀ o ∈ s.orders, ∀ it ∈ o.items, 0 ≤ it.quantity

instance stocksNonnegDecidable (s : Store) : Decidable (stocksNonneg s) :=
  inferInstanceAs (Decidable (∀ p ∈ s.products, 0 ≤ p.stockQuantity))

instance ordersItemsNonnegDecidable (s : Store) : Decidable (ordersItemsNonneg s) :=
  inferInstanceAs (Decidable (∀ o ∈ s.orders, ∀ it ∈ o.items, 0 ≤ it.quantity))

/-- One externally invocable order-lifecycle call (the operations the
stock-non-negativity property quantifies over). -/
inductive Call where
  | createOrder (userId : String) (req : CreateOrderRequest)
  | cancelOrder (orderId : String) (userId : String)
deriving DecidableEq, Repr

/-- The store state after executing one call (calls arrive through the
HTTP boundary: order creation passes the handler's binding validation). -/
def step (s : Store) : Call → Store
  | .createOrder u req => (handlerImpl.CreateOrder s u req).2
  | .cancelOrder oid u => (serviceImpl.CancelOrder s oid u).2

/-- The store state after a sequence of calls executed one at a time. -/
def run (s : Store) : List Call → Store
  | [] => s
  | c :: cs => run (step s c) cs

/-! Concrete fixtures used by the closed theorems and witnesses. -/

/-- A catalog product: id `p1`, price 10, stock 5. -/
def demoProduct : Product :=
  { id := "p1", name := "Widget", description := "", price := 10, stockQuantity := 5 }

/-- A store holding only `p1`, no orders. -/
def demoStore : Store := { products := [demoProduct], orders := [], nextId := 0 }

/-- A pending order `o1` of user `u1`: 2 units of `p1` and 1 unit of the
meanwhile-deleted product `p2`. -/
def demoOrder : Order :=
  { id := "o1", userId := "u1", status := .pending, totalAmount := 27,
    items := [{ id := "i1", orderId := "o1", productId := "p1", quantity := 2, unitPrice := 10 },
              { id := "i2", orderId := "o1", productId := "p2", quantity := 1, unitPrice := 7 }] }

/-- A store where `p1` has stock 7 and order `o1` is pending (the state in
which `o1`'s cancellation starts restoring stock). -/
def demoCancelStore : Store :=
  { products := [{ demoProduct with stockQuantity := 7 }], orders := [demoOrder], nextId := 3 }

/-- A pending single-item order `o2` of user `u1`: 3 units of `p1`. -/
def demoOrder2 : Order :=
  { id := "o2", userId := "u1", status := .pending, totalAmount := 30,
    items := [{ id := "i3", orderId := "o2", productId := "p1", quantity := 3, unitPrice := 10 }] }

/-- A store where `p1` has stock 2 and order `o2` is pending (the state
right after `o2` was created from stock 5). -/
def demoCancelStore2 : Store :=
  { products := [{ demoProduct with stockQuantity := 2 }], orders := [demoOrder2], nextId := 3 }

/-- `demoStore` with the catalog price of `p1` raised to 25. -/
def demoStorePricier : Store :=
  { products := [{ demoProduct with price := 25 }], orders := [], nextId := 0 }

/-- The store after the first (successful) item of the C7 witness request:
`p1` decremented from 5 to 3, no order rows. -/
def demoStoreMid : Store :=
  { products := [{ demoProduct with stockQuantity := 3 }], orders := [], nextId := 0 }

/-- The resolved order item the createOrder loop builds for 2 units of `p1`. -/
def demoItemPre : OrderItem :=
  { id := "", orderId := "", productId := "p1", quantity := 2, unitPrice := 10 }

/-- A delivered (terminal) order. -/
def demoDelivered : Order :=
  { id := "o3", userId := "u1", status := .delivered, totalAmount := 0, items := [] }

/-- A store holding one delivered order. -/
def demoStatusStore : Store := { products := [], orders := [demoDelivered], nextId := 0 }

/-- A store already holding one order row — necessarily with the constant
empty id every CreateOrder inserts — so that the next order INSERT hits the
orders primary key. -/
def demoStoreTaken : Store :=
  { products := [demoProduct],
    orders := [{ id := "", userId := "u1", status := .pending, totalAmount := 0, items := [] }],
    nextId := 0 }

/-! ## Helper lemmas -/

theorem generateID_length (n : Nat) : (generateID n).length = n + 1 := by
  simp [generateID, String.length]

theorem generateID_injective : Function.Injective generateID := by
  intro a b h
  have hl : (generateID a).length = (generateID b).length := by rw [h]
  simpa [generateID_length] using hl

theorem generateID_ne_empty (n : Nat) : generateID n ≠ "" := by
  intro h
  have hl := congrArg String.length h
  simp [generateID_length] at hl

theorem find?_map_products (f : Product → Product) (hf : ∀ q, (f q).id = q.id)
    (l : List Product) (pid : String) :
    (l.map f).find? (fun q => q.id == pid) = (l.find? (fun q => q.id == pid)).map f := by
  rw [List.find?_map]
  have hp : ((fun q => q.id == pid) ∘ f) = (fun q : Product => q.id == pid) := by
    funext q
    simp [Function.comp, hf]
  rw [hp]

theorem find?_map_orders (f : Order → Order) (hf : ∀ o, (f o).id = o.id)
    (l : List Order) (oid : String) :
    (l.map f).find? (fun o => o.id == oid) = (l.find? (fun o => o.id == oid)).map f := by
  rw [List.find?_map]
  have hp : ((fun o => o.id == oid) ∘ f) = (fun o : Order => o.id == oid) := by
    funext o
    simp [Function.comp, hf]
  rw [hp]

theorem any_map_products (f : Product → Product) (hf : ∀ q, (f q).id = q.id)
    (l : List Product) (pid : String) :
    (l.map f).any (fun q => q.id == pid) = l.any (fun q => q.id == pid) := by
  induction l with
  | nil => rfl
  | cons q l ih => simp [List.any_cons, ih, hf]

theorem updateRow_id (p' : Product) (q : Product) :
    (if q.id == p'.id then p' else q).id = q.id := by
  by_cases h : (q.id == p'.id) = true
  · simp [h, beq_iff_eq.mp h]
  · simp [h]

theorem setStatusRow_id (oid : String) (st : OrderStatus) (o : Order) :
    (if o.id == oid then { o with status := st } else o).id = o.id := by
  by_cases h : (o.id == oid) = true
  · simp [h]
  · simp [h]

theorem assignItemIds_fields (oid : String) :
    ∀ (l : List OrderItem) (c : Nat) (it' : OrderItem),
      it' ∈ (assignItemIds c oid l).1 →
      ∃ it ∈ l, ∃ k, c ≤ k ∧
        it' = { it with id := generateID k, orderId := oid } := by
  intro l
  induction l with
  | nil => intro c it' h; simp [assignItemIds] at h
  | cons it rest ih =>
      intro c it' h
      simp only [assignItemIds] at h
      rcases List.mem_cons.mp h with h0 | h0
      · exact ⟨it, List.mem_cons_self it rest, c, le_refl c, h0⟩
      · obtain ⟨it0, hmem, k, hk, heq⟩ := ih (c + 1) it' h0
        exact ⟨it0, List.mem_cons_of_mem it hmem, k, Nat.le_of_succ_le hk, heq⟩

theorem assignItemIds_map_id (oid : String) :
    ∀ (l : List OrderItem) (c : Nat),
      ((assignItemIds c oid l).1.map (fun it => it.id)).Nodup := by
  intro l
  induction l with
  | nil => intro c; simp [assignItemIds]
  | cons it rest ih =>
      intro c
      simp only [assignItemIds, List.map_cons, List.nodup_cons]
      refine ⟨?_, ih (c + 1)⟩
      intro hmem
      obtain ⟨it', hit', hid⟩ := List.mem_map.mp hmem
      obtain ⟨it0, _, k, hk, heq⟩ := assignItemIds_fields oid rest (c + 1) it' hit'
      rw [heq] at hid
      simp only at hid
      have : k = c := generateID_injective hid
      omega

theorem assignItemIds_map_quantity (oid : String) :
    ∀ (l : List OrderItem) (c : Nat),
      (assignItemIds c oid l).1.map (fun it => it.quantity) = l.map (fun it => it.quantity) := by
  intro l
  induction l with
  | nil => intro c; simp [assignItemIds]
  | cons it rest ih => intro c; simp [assignItemIds, ih (c + 1)]

theorem assignItemIds_sumItems (oid : String) :
    ∀ (l : List OrderItem) (c : Nat),
      sumItems (assignItemIds c oid l).1 = sumItems l := by
  intro l
  induction l with
  | nil => intro c; simp [assignItemIds]
  | cons it rest ih => intro c; simp [assignItemIds, sumItems] at ih ⊢; rw [ih (c + 1)]

theorem update_preserves_price_find? (l : List Product) (p p' : Product)
    (hfind : l.find? (fun q => q.id == p.id) = some p)
    (hid : p'.id = p.id) (hprice : p'.price = p.price) (pid : String) :
    ((l.map (fun q => if q.id == p'.id then p' else q)).find? (fun q => q.id == pid)).map
        (fun q => q.price)
      = (l.find? (fun q => q.id == pid)).map (fun q => q.price) := by
  rw [find?_map_products _ (updateRow_id p') l pid]
  cases hl : l.find? (fun q => q.id == pid) with
  | none => simp
  | some q0 =>
      by_cases hq : (q0.id == p'.id) = true
      · have hq0 : q0.id = p'.id := beq_iff_eq.mp hq
        have hpid0 := List.find?_some hl
        have hpid : q0.id = pid := beq_iff_eq.mp hpid0
        have hped : pid = p.id := by rw [← hpid, hq0, hid]
        rw [hped] at hl
        have : q0 = p := by rw [hl] at hfind; exact (Option.some.injEq _ _).mp hfind
        subst this
        simp only [beq_iff_eq] at hq
        simp [hq, hprice]
      · simp only [beq_iff_eq] at hq
        simp [hq]

theorem createOrderLoop_preserves_orders :
    ∀ (req : List CreateOrderItemRequest) (s : Store) (acc : List OrderItem) (total : ℚ),
      ((serviceImpl.createOrderLoop req s acc total).2).orders = s.orders ∧
      ((serviceImpl.createOrderLoop req s acc total).2).nextId = s.nextId := by
  intro req
  induction req with
  | nil => intro s acc total; exact ⟨rfl, rfl⟩
  | cons it rest ih =>
      intro s acc total
      simp only [serviceImpl.createOrderLoop]
      cases hf : repositoryImpl.GetProductByID s it.productId with
      | error e => exact ⟨rfl, rfl⟩
      | ok product =>
          by_cases hs : product.stockQuantity < it.quantity
          · simp [hs]
          · simp only [hs, if_false]
            cases hu : repositoryImpl.UpdateProduct s
                { product with stockQuantity := product.stockQuantity - it.quantity } with
            | error e => exact ⟨rfl, rfl⟩
            | ok s' =>
                have hso : s'.orders = s.orders ∧ s'.nextId = s.nextId := by
                  unfold repositoryImpl.UpdateProduct at hu
                  by_cases ha : s.products.any (fun q =>
                      q.id == ({ product with stockQuantity := product.stockQuantity - it.quantity} : Product).id) = true
                  · rw [if_pos ha] at hu
                    cases hu
                    exact ⟨rfl, rfl⟩
                  · rw [if_neg ha] at hu
                    cases hu
                obtain ⟨h1, h2⟩ := ih s' (acc ++ [_]) (total + product.price * it.quantity)
                exact ⟨h1.trans hso.1, h2.trans hso.2⟩

theorem createOrderLoop_stocksNonneg :
    ∀ (req : List CreateOrderItemRequest) (s : Store) (acc : List OrderItem) (total : ℚ),
      (∀ p ∈ s.products, 0 ≤ p.stockQuantity) →
      ∀ p' ∈ ((serviceImpl.createOrderLoop req s acc total).2).products, 0 ≤ p'.stockQuantity := by
  intro req
  induction req with
  | nil => intro s acc total hs; exact hs
  | cons it rest ih =>
      intro s acc total hs
      simp only [serviceImpl.createOrderLoop]
      cases hf : repositoryImpl.GetProductByID s it.productId with
      | error e => exact hs
      | ok product =>
          by_cases hlt : product.stockQuantity < it.quantity
          · simp only [hlt, if_true]
            exact hs
          · simp only [hlt, if_false]
            cases hu : repositoryImpl.UpdateProduct s
                { product with stockQuantity := product.stockQuantity - it.quantity } with
            | error e => exact hs
            | ok s' =>
                apply ih
                intro q hq
                unfold repositoryImpl.UpdateProduct at hu
                by_cases ha : s.products.any (fun q0 =>
                    q0.id == ({ product with stockQuantity := product.stockQuantity - it.quantity } : Product).id) = true
                · rw [if_pos ha] at hu
                  cases hu
                  simp only at hq
                  obtain ⟨q0, hq0, hq0e⟩ := List.mem_map.mp hq
                  by_cases hb : (q0.id == ({ product with stockQuantity := product.stockQuantity - it.quantity } : Product).id) = true
                  · rw [if_pos hb] at hq0e
                    subst hq0e
                    simp only
                    omega
                  · rw [if_neg hb] at hq0e
                    subst hq0e
                    exact hs q0 hq0
                · rw [if_neg ha] at hu
                  cases hu

theorem createOrderLoop_append :
    ∀ (pre rest : List CreateOrderItemRequest) (s : Store) (acc : List OrderItem) (total : ℚ)
      (acc' : List OrderItem) (total' : ℚ) (s₁ : Store),
      serviceImpl.createOrderLoop pre s acc total = (.ok (acc', total'), s₁) →
      serviceImpl.createOrderLoop (pre ++ rest) s acc total
        = serviceImpl.createOrderLoop rest s₁ acc' total' := by
  intro pre
  induction pre with
  | nil =>
      intro rest s acc total acc' total' s₁ h
      simp only [serviceImpl.createOrderLoop, Prod.mk.injEq, Except.ok.injEq] at h
      obtain ⟨⟨h1, h2⟩, h3⟩ := h
      subst h1; subst h2; subst h3
      simp
  | cons it pre ih =>
      intro rest s acc total acc' total' s₁ h
      rw [List.cons_append]
      simp only [serviceImpl.createOrderLoop] at h ⊢
      cases hf : repositoryImpl.GetProductByID s it.productId with
      | error e => rw [hf] at h; simp at h
      | ok product =>
          simp only [hf] at h ⊢
          by_cases hlt : product.stockQuantity < it.quantity
          · rw [if_pos hlt] at h
            simp at h
          · rw [if_neg hlt] at h ⊢
            cases hu : repositoryImpl.UpdateProduct s
                { product with stockQuantity := product.stockQuantity - it.quantity } with
            | error e => simp only [hu] at h; simp at h
            | ok s' =>
                simp only [hu] at h ⊢
                exact ih rest s' _ _ acc' total' s₁ h

theorem CreateOrder_of_loop_error {req : List CreateOrderItemRequest} {s : Store}
    {u : String} {e : Err} {s₁ : Store}
    (h : serviceImpl.createOrderLoop req s [] 0 = (.error e, s₁)) :
    serviceImpl.CreateOrder s u req = (.error e, s₁) := by
  simp [serviceImpl.CreateOrder, repositoryImpl.WithTransaction, h]

theorem createOrderItemsLoop_ok_shape (oid : String) :
    ∀ (items existing : List OrderItem) (c : Nat) (items' : List OrderItem) (c' : Nat),
      repositoryImpl.createOrderItemsLoop oid existing items c = (.ok items', c') →
      items' = (assignItemIds c oid items).1 ∧ c' = (assignItemIds c oid items).2 := by
  intro items
  induction items with
  | nil =>
      intro existing c items' c' h
      simp only [repositoryImpl.createOrderItemsLoop, Prod.mk.injEq, Except.ok.injEq] at h
      exact ⟨h.1.symm, h.2.symm⟩
  | cons it rest ih =>
      intro existing c items' c' h
      simp only [repositoryImpl.createOrderItemsLoop] at h
      by_cases hc : ((existing.any (fun e0 =>
          e0.orderId == ({ it with id := generateID c, orderId := oid } : OrderItem).orderId &&
          e0.productId == ({ it with id := generateID c, orderId := oid } : OrderItem).productId))) = true
      · rw [if_pos hc] at h
        simp at h
      · rw [if_neg hc] at h
        cases hrec : repositoryImpl.createOrderItemsLoop oid
            (existing ++ [{ it with id := generateID c, orderId := oid }]) rest (c + 1) with
        | mk r c0 =>
            rw [hrec] at h
            cases r with
            | error e => simp at h
            | ok rest' =>
                simp only [Prod.mk.injEq, Except.ok.injEq] at h
                obtain ⟨hrest, hcount⟩ := ih (existing ++ [_]) (c + 1) rest' c0 hrec
                simp only [assignItemIds]
                constructor
                · rw [← h.1, hrest]
                · rw [← h.2, hcount]

theorem repoCreateOrder_preserves (s : Store) (tx : Tx) (order : Order) :
    ((repositoryImpl.CreateOrder s tx order).2).products = s.products ∧
    ((repositoryImpl.CreateOrder s tx order).2).orders = s.orders := by
  unfold repositoryImpl.CreateOrder
  by_cases hpk : (((s.orders ++ tx.insertedOrders).any (fun o => o.id == order.id))) = true
  · rw [if_pos hpk]
    exact ⟨rfl, rfl⟩
  · rw [if_neg hpk]
    cases hl : repositoryImpl.createOrderItemsLoop order.id
        (allOrderItems (s.orders ++ tx.insertedOrders)) order.items s.nextId with
    | mk r c' =>
        cases r with
        | error e => exact ⟨rfl, rfl⟩
        | ok items' => exact ⟨rfl, rfl⟩

theorem repoCreateOrder_ok_shape {s : Store} {tx : Tx} {order o' : Order} {tx' : Tx} {s2 : Store}
    (h : repositoryImpl.CreateOrder s tx order = (.ok (o', tx'), s2)) :
    ((s.orders ++ tx.insertedOrders).any (fun o => o.id == order.id)) = false ∧
    o' = { order with items := (assignItemIds s.nextId order.id order.items).1 } ∧
    tx' = { tx with insertedOrders := tx.insertedOrders ++ [o'] } ∧
    s2 = { s with nextId := (assignItemIds s.nextId order.id order.items).2 } := by
  unfold repositoryImpl.CreateOrder at h
  by_cases hpk : (((s.orders ++ tx.insertedOrders).any (fun o => o.id == order.id))) = true
  · rw [if_pos hpk] at h
    simp at h
  · rw [if_neg hpk] at h
    cases hl : repositoryImpl.createOrderItemsLoop order.id
        (allOrderItems (s.orders ++ tx.insertedOrders)) order.items s.nextId with
    | mk r c' =>
        rw [hl] at h
        cases r with
        | error e => simp at h
        | ok items' =>
            simp only [Prod.mk.injEq, Except.ok.injEq] at h
            obtain ⟨⟨ho', htx'⟩, hs2⟩ := h
            obtain ⟨hitems, hcount⟩ := createOrderItemsLoop_ok_shape order.id order.items
              (allOrderItems (s.orders ++ tx.insertedOrders)) s.nextId items' c' hl
            refine ⟨Bool.not_eq_true _ ▸ (by simpa using hpk), ?_, ?_, ?_⟩
            · rw [← ho', hitems]
            · rw [← htx', ← ho']
            · rw [← hs2, hcount]

theorem CreateOrder_of_insert_error {req : List CreateOrderItemRequest} {s : Store}
    {u : String} {items : List OrderItem} {total : ℚ} {s₁ : Store} {e0 : Err} {s2 : Store}
    (hloop : serviceImpl.createOrderLoop req s [] 0 = (.ok (items, total), s₁))
    (hins : repositoryImpl.CreateOrder s₁ ⟨[]⟩
      { id := "", userId := u, status := .pending, totalAmount := total, items := items }
      = (.error e0, s2)) :
    serviceImpl.CreateOrder s u req = (.error (wrap "creating order" e0), s2) := by
  simp [serviceImpl.CreateOrder, repositoryImpl.WithTransaction, hloop, hins]

theorem CreateOrder_of_insert_ok {req : List CreateOrderItemRequest} {s : Store}
    {u : String} {items : List OrderItem} {total : ℚ} {s₁ : Store} {o' : Order}
    {tx' : Tx} {s2 : Store}
    (hloop : serviceImpl.createOrderLoop req s [] 0 = (.ok (items, total), s₁))
    (hins : repositoryImpl.CreateOrder s₁ ⟨[]⟩
      { id := "", userId := u, status := .pending, totalAmount := total, items := items }
      = (.ok (o', tx'), s2)) :
    serviceImpl.CreateOrder s u req =
      (.ok (), { s2 with orders := s2.orders ++ tx'.insertedOrders }) := by
  simp [serviceImpl.CreateOrder, repositoryImpl.WithTransaction, hloop, hins]

theorem createOrderLoop_ok_spec :
    ∀ (req : List CreateOrderItemRequest) (s : Store) (acc : List OrderItem) (total : ℚ)
      (acc' : List OrderItem) (total' : ℚ) (s₁ : Store),
      serviceImpl.createOrderLoop req s acc total = (.ok (acc', total'), s₁) →
      ∃ newIts : List OrderItem,
        acc' = acc ++ newIts ∧
        total' = total + sumItems newIts ∧
        (∀ pid : String,
          (s₁.products.find? (fun q => q.id == pid)).map (fun q => q.price)
            = (s.products.find? (fun q => q.id == pid)).map (fun q => q.price)) ∧
        ∀ it' ∈ newIts, it'.id = "" ∧ it'.orderId = "" ∧
          (∃ rq ∈ req, it'.quantity = rq.quantity) ∧
          ∃ p, s.products.find? (fun q => q.id == it'.productId) = some p ∧
            it'.unitPrice = p.price := by
  intro req
  induction req with
  | nil =>
      intro s acc total acc' total' s₁ h
      simp only [serviceImpl.createOrderLoop, Prod.mk.injEq, Except.ok.injEq] at h
      obtain ⟨⟨h1, h2⟩, h3⟩ := h
      subst h1; subst h2; subst h3
      exact ⟨[], by simp, by simp [sumItems], fun pid => rfl, by simp⟩
  | cons it rest ih =>
      intro s acc total acc' total' s₁ h
      simp only [serviceImpl.createOrderLoop] at h
      cases hf : repositoryImpl.GetProductByID s it.productId with
      | error e => rw [hf] at h; simp at h
      | ok product =>
          simp only [hf] at h
          by_cases hlt : product.stockQuantity < it.quantity
          · rw [if_pos hlt] at h; simp at h
          · rw [if_neg hlt] at h
            cases hu : repositoryImpl.UpdateProduct s
                { product with stockQuantity := product.stockQuantity - it.quantity } with
            | error e => simp only [hu] at h; simp at h
            | ok s' =>
                simp only [hu] at h
                have hfind0 : s.products.find? (fun q => q.id == it.productId) = some product := by
                  unfold repositoryImpl.GetProductByID at hf
                  revert hf
                  cases hfp : s.products.find? (fun q => q.id == it.productId) with
                  | none => intro hf; cases hf
                  | some q => intro hf; cases hf; rfl
                have hpid0 := List.find?_some hfind0
                have hpid : product.id = it.productId := beq_iff_eq.mp hpid0
                have hfindP : s.products.find? (fun q => q.id == product.id) = some product := by
                  rw [hpid]; exact hfind0
                have hs' : s' = { s with products := s.products.map (fun q =>
                    if q.id == ({ product with stockQuantity := product.stockQuantity - it.quantity } : Product).id
                    then { product with stockQuantity := product.stockQuantity - it.quantity } else q) } := by
                  unfold repositoryImpl.UpdateProduct at hu
                  by_cases ha : (s.products.any (fun q =>
                      q.id == ({ product with stockQuantity := product.stockQuantity - it.quantity } : Product).id)) = true
                  · rw [if_pos ha] at hu; cases hu; rfl
                  · rw [if_neg ha] at hu; cases hu
                have hprice : ∀ pid : String,
                    (s'.products.find? (fun q => q.id == pid)).map (fun q => q.price)
                      = (s.products.find? (fun q => q.id == pid)).map (fun q => q.price) := by
                  intro pid
                  rw [hs']
                  exact update_preserves_price_find? s.products product
                    { product with stockQuantity := product.stockQuantity - it.quantity }
                    hfindP rfl rfl pid
                obtain ⟨newIts, hacc, htot, hpr, hits⟩ := ih s' _ _ acc' total' s₁ h
                refine ⟨{ id := "", orderId := "", productId := product.id,
                          quantity := it.quantity, unitPrice := product.price } :: newIts,
                        ?_, ?_, ?_, ?_⟩
                · rw [hacc]; simp
                · rw [htot]; simp only [sumItems, List.map_cons, List.sum_cons]; ring
                · intro pid; rw [hpr pid, hprice pid]
                · intro it' hit'
                  rcases List.mem_cons.mp hit' with h0 | h0
                  · subst h0
                    exact ⟨rfl, rfl, ⟨it, List.mem_cons_self it rest, rfl⟩, product, hfindP, rfl⟩
                  · obtain ⟨hid0, hoid0, ⟨rq, hrq, hq0⟩, p0, hp0, hup0⟩ := hits it' h0
                    refine ⟨hid0, hoid0, ⟨rq, List.mem_cons_of_mem it hrq, hq0⟩, ?_⟩
                    have h2 := hprice it'.productId
                    rw [hp0] at h2
                    cases hsf : s.products.find? (fun q => q.id == it'.productId) with
                    | none => rw [hsf] at h2; simp at h2
                    | some p1 =>
                        rw [hsf] at h2
                        simp only [Option.map] at h2
                        have hpe : p0.price = p1.price := by
                          exact Option.some.inj h2
                        exact ⟨p1, rfl, by rw [hup0, hpe]⟩

theorem restoreLoop_preserves_orders :
    ∀ (items : List OrderItem) (s : Store),
      ((serviceImpl.restoreLoop items s).2).orders = s.orders ∧
      ((serviceImpl.restoreLoop items s).2).nextId = s.nextId := by
  intro items
  induction items with
  | nil => intro s; exact ⟨rfl, rfl⟩
  | cons it rest ih =>
      intro s
      cases hf : repositoryImpl.GetProductByID s it.productId with
      | error e => simp only [serviceImpl.restoreLoop, hf]; exact ⟨trivial, trivial⟩
      | ok product =>
          cases hu : repositoryImpl.UpdateProduct s
              { product with stockQuantity := product.stockQuantity + it.quantity } with
          | error e => simp only [serviceImpl.restoreLoop, hf, hu]; exact ⟨trivial, trivial⟩
          | ok s' =>
              simp only [serviceImpl.restoreLoop, hf, hu]
              have hso : s'.orders = s.orders ∧ s'.nextId = s.nextId := by
                unfold repositoryImpl.UpdateProduct at hu
                by_cases ha : (s.products.any (fun q =>
                    q.id == ({ product with stockQuantity := product.stockQuantity + it.quantity } : Product).id)) = true
                · rw [if_pos ha] at hu; cases hu; exact ⟨rfl, rfl⟩
                · rw [if_neg ha] at hu; cases hu
              obtain ⟨h1, h2⟩ := ih s'
              exact ⟨h1.trans hso.1, h2.trans hso.2⟩

theorem restoreLoop_stocksNonneg :
    ∀ (items : List OrderItem) (s : Store),
      (∀ p ∈ s.products, 0 ≤ p.stockQuantity) →
      (∀ it ∈ items, 0 ≤ it.quantity) →
      ∀ p' ∈ ((serviceImpl.restoreLoop items s).2).products, 0 ≤ p'.stockQuantity := by
  intro items
  induction items with
  | nil => intro s hs _; exact hs
  | cons it rest ih =>
      intro s hs hq
      cases hf : repositoryImpl.GetProductByID s it.productId with
      | error e => simp only [serviceImpl.restoreLoop, hf]; exact hs
      | ok product =>
          have hpmem : product ∈ s.products := by
            unfold repositoryImpl.GetProductByID at hf
            revert hf
            cases hfp : s.products.find? (fun p => p.id == it.productId) with
            | none => intro hf; cases hf
            | some q => intro hf; cases hf; exact List.mem_of_find?_eq_some hfp
          cases hu : repositoryImpl.UpdateProduct s
              { product with stockQuantity := product.stockQuantity + it.quantity } with
          | error e => simp only [serviceImpl.restoreLoop, hf, hu]; exact hs
          | ok s' =>
              simp only [serviceImpl.restoreLoop, hf, hu]
              apply ih s'
              · intro q hqm
                unfold repositoryImpl.UpdateProduct at hu
                by_cases ha : (s.products.any (fun q0 =>
                    q0.id == ({ product with stockQuantity := product.stockQuantity + it.quantity } : Product).id)) = true
                · rw [if_pos ha] at hu
                  cases hu
                  simp only at hqm
                  obtain ⟨q0, hq0, hq0e⟩ := List.mem_map.mp hqm
                  by_cases hb : (q0.id == ({ product with stockQuantity := product.stockQuantity + it.quantity } : Product).id) = true
                  · rw [if_pos hb] at hq0e
                    subst hq0e
                    have h1 := hs product hpmem
                    have h2 := hq it (List.mem_cons_self it rest)
                    simp only
                    omega
                  · rw [if_neg hb] at hq0e
                    subst hq0e
                    exact hs q0 hq0
                · rw [if_neg ha] at hu; cases hu
              · intro it0 hit0
                exact hq it0 (List.mem_cons_of_mem it hit0)

theorem restoreLoop_effect :
    ∀ (items : List OrderItem) (s : Store),
      (∀ it ∈ items, s.products.any (fun p => p.id == it.productId) = true) →
      ((items.map (fun it => it.productId)).Nodup) →
      (serviceImpl.restoreLoop items s).1 = .ok () ∧
      (∀ it ∈ items, ∃ p, s.products.find? (fun q => q.id == it.productId) = some p ∧
        ((serviceImpl.restoreLoop items s).2).products.find? (fun q => q.id == it.productId)
          = some { p with stockQuantity := p.stockQuantity + it.quantity }) ∧
      (∀ pid : String, (∀ it ∈ items, it.productId ≠ pid) →
        ((serviceImpl.restoreLoop items s).2).products.find? (fun q => q.id == pid)
          = s.products.find? (fun q => q.id == pid)) := by
  intro items
  induction items with
  | nil =>
      intro s _ _
      refine ⟨rfl, by simp, fun pid _ => rfl⟩
  | cons it rest ih =>
      intro s hex hnd
      have hexH := hex it (List.mem_cons_self it rest)
      obtain ⟨p0, hp0mem, hp0id⟩ := List.any_eq_true.mp hexH
      have hfsome : (s.products.find? (fun q => q.id == it.productId)).isSome := by
        cases hc : s.products.find? (fun q => q.id == it.productId) with
        | none =>
            rw [List.find?_eq_none] at hc
            exact absurd hp0id (hc p0 hp0mem)
        | some q => rfl
      cases hfind : s.products.find? (fun q => q.id == it.productId) with
      | none => rw [hfind] at hfsome; cases hfsome
      | some p =>
          have hpid0 := List.find?_some hfind
          have hpid : p.id = it.productId := beq_iff_eq.mp hpid0
          have hget : repositoryImpl.GetProductByID s it.productId = .ok p := by
            unfold repositoryImpl.GetProductByID
            rw [hfind]
          have hany : (s.products.any (fun q =>
              q.id == ({ p with stockQuantity := p.stockQuantity + it.quantity } : Product).id)) = true := by
            simp only
            rw [hpid]
            exact hexH
          have hupd : repositoryImpl.UpdateProduct s
              { p with stockQuantity := p.stockQuantity + it.quantity } =
              .ok { s with products := s.products.map (fun q =>
                if q.id == ({ p with stockQuantity := p.stockQuantity + it.quantity } : Product).id
                then { p with stockQuantity := p.stockQuantity + it.quantity } else q) } := by
            unfold repositoryImpl.UpdateProduct
            rw [if_pos hany]
          simp only [serviceImpl.restoreLoop, hget, hupd]
          set p' : Product := { p with stockQuantity := p.stockQuantity + it.quantity } with hp'
          set s' : Store := { s with products := s.products.map (fun q =>
            if q.id == p'.id then p' else q) } with hs'
          have hfind_s' : ∀ pid : String,
              s'.products.find? (fun q => q.id == pid)
                = (s.products.find? (fun q => q.id == pid)).map (fun q =>
                    if q.id == p'.id then p' else q) := by
            intro pid
            rw [hs']
            exact find?_map_products _ (updateRow_id p') s.products pid
          have hany_s' : ∀ pid : String,
              s'.products.any (fun q => q.id == pid) = s.products.any (fun q => q.id == pid) := by
            intro pid
            rw [hs']
            exact any_map_products _ (updateRow_id p') s.products pid
          have hnd_tail : ((rest.map (fun it0 => it0.productId)).Nodup) := by
            simp only [List.map_cons, List.nodup_cons] at hnd
            exact hnd.2
          have hhead_notin : it.productId ∉ rest.map (fun it0 => it0.productId) := by
            simp only [List.map_cons, List.nodup_cons] at hnd
            exact hnd.1
          have hex_tail : ∀ it0 ∈ rest, s'.products.any (fun q => q.id == it0.productId) = true := by
            intro it0 h0
            rw [hany_s' it0.productId]
            exact hex it0 (List.mem_cons_of_mem it h0)
          obtain ⟨ihok, ihitems, ihuntouched⟩ := ih s' hex_tail hnd_tail
          refine ⟨ihok, ?_, ?_⟩
          · intro it0 hit0
            rcases List.mem_cons.mp hit0 with h0 | h0
            · subst h0
              refine ⟨p, hfind, ?_⟩
              have hrest_ne : ∀ it1 ∈ rest, it1.productId ≠ it0.productId := by
                intro it1 h1 hcon
                exact hhead_notin (hcon ▸ List.mem_map_of_mem (fun x => x.productId) h1)
              rw [ihuntouched it0.productId hrest_ne]
              rw [hfind_s' it0.productId, hfind]
              simp only [Option.map]
              have hpp : (p.id == p'.id) = true := by
                simp [hp']
              rw [hpp]
              simp [hp']
            · obtain ⟨pMid, hpMid, hfin⟩ := ihitems it0 h0
              have hne : it0.productId ≠ it.productId := by
                intro hcon
                exact hhead_notin (hcon ▸ List.mem_map_of_mem (fun x => x.productId) h0)
              rw [hfind_s' it0.productId] at hpMid
              cases hsf : s.products.find? (fun q => q.id == it0.productId) with
              | none => rw [hsf] at hpMid; cases hpMid
              | some q0 =>
                  rw [hsf] at hpMid
                  have hq0id : q0.id = it0.productId := by
                    have := List.find?_some hsf
                    exact beq_iff_eq.mp this
                  have hq0ne : (q0.id == p'.id) = false := by
                    have : q0.id ≠ p'.id := by
                      rw [hq0id]
                      intro hcon
                      apply hne
                      rw [hcon, hp']
                      exact hpid
                    exact beq_eq_false_iff_ne.mpr this
                  simp only [Option.map, hq0ne] at hpMid
                  rw [if_neg (by simp)] at hpMid
                  injection hpMid with hpMid0
                  subst hpMid0
                  exact ⟨q0, rfl, hfin⟩
          · intro pid hne
            have hne_tail : ∀ it0 ∈ rest, it0.productId ≠ pid := by
              intro it0 h0
              exact hne it0 (List.mem_cons_of_mem it h0)
            rw [ihuntouched pid hne_tail, hfind_s' pid]
            cases hsf : s.products.find? (fun q => q.id == pid) with
            | none => rfl
            | some q0 =>
                have hq0id : q0.id = pid := by
                  have := List.find?_some hsf
                  exact beq_iff_eq.mp this
                have hq0ne : q0.id ≠ p'.id := by
                  rw [hq0id]
                  intro hcon
                  apply hne it (List.mem_cons_self it rest)
                  rw [← hpid, ← hcon]
                simp only [Option.map]
                rw [if_neg (by simp [hq0ne])]

theorem UpdateOrderStatus_ok_shape {s : Store} {oid : String} {st : OrderStatus} {s1 : Store}
    (h : repositoryImpl.UpdateOrderStatus s oid st = .ok s1) :
    s1 = { s with orders := s.orders.map (fun o => if o.id == oid then { o with status := st } else o) } := by
  unfold repositoryImpl.UpdateOrderStatus at h
  by_cases ha : (s.orders.any (fun o => o.id == oid)) = true
  · rw [if_pos ha] at h
    injection h with h0
    exact h0.symm
  · rw [if_neg ha] at h; cases h

theorem GetOrderByID_ok_shape {s : Store} {oid : String} {order : Order}
    (h : repositoryImpl.GetOrderByID s oid = .ok order) :
    ∃ o, s.orders.find? (fun o0 => o0.id == oid) = some o ∧
      order = { o with items := joinedItems s o } := by
  unfold repositoryImpl.GetOrderByID at h
  revert h
  cases hf : s.orders.find? (fun o0 => o0.id == oid) with
  | none => intro h; cases h
  | some o =>
      intro h
      injection h with h0
      exact ⟨o, rfl, h0.symm⟩

theorem bindCreateOrder_true {req : CreateOrderRequest} (h : bindCreateOrder req = true) :
    ∃ l, req.items = some l ∧ ∀ rq ∈ l, rq.productId ≠ "" ∧ 0 < rq.quantity := by
  cases hreq : req.items with
  | none =>
      cases req with
      | mk items => cases items with
        | none => simp [bindCreateOrder] at h
        | some l => cases hreq
  | some l =>
      refine ⟨l, rfl, ?_⟩
      cases req with
      | mk items =>
          cases items with
          | none => cases hreq
          | some l0 =>
              injection hreq with h0
              subst h0
              simp only [bindCreateOrder] at h
              intro rq hrq
              have := List.all_eq_true.mp h rq hrq
              simp only [Bool.and_eq_true, bne_iff_ne, decide_eq_true_eq] at this
              exact this

theorem step_preserves_inv (s : Store) (c : Call)
    (h1 : stocksNonneg s) (h2 : ordersItemsNonneg s) :
    stocksNonneg (step s c) ∧ ordersItemsNonneg (step s c) := by
  cases c with
  | createOrder u req =>
      simp only [step, handlerImpl.CreateOrder]
      by_cases hb : bindCreateOrder req = true
      · rw [if_pos hb]
        obtain ⟨l, hitems, hpos⟩ := bindCreateOrder_true hb
        rw [hitems]
        simp only [Option.getD]
        cases hloop : serviceImpl.createOrderLoop l s [] 0 with
        | mk r s₁ =>
            cases r with
            | error e =>
                rw [CreateOrder_of_loop_error hloop]
                constructor
                · intro p hp
                  have := createOrderLoop_stocksNonneg l s [] 0 h1
                  rw [hloop] at this
                  exact this p hp
                · have horders := createOrderLoop_preserves_orders l s [] 0
                  rw [hloop] at horders
                  intro o ho
                  rw [horders.1] at ho
                  exact h2 o ho
            | ok pr =>
                cases pr with
                | mk items total =>
                    have horders := createOrderLoop_preserves_orders l s [] 0
                    rw [hloop] at horders
                    have hstock₁ := createOrderLoop_stocksNonneg l s [] 0 h1
                    rw [hloop] at hstock₁
                    cases hins : repositoryImpl.CreateOrder s₁ ⟨[]⟩
                        { id := "", userId := u, status := OrderStatus.pending,
                          totalAmount := total, items := items } with
                    | mk ri s2 =>
                        have hpres := repoCreateOrder_preserves s₁ ⟨[]⟩
                          { id := "", userId := u, status := OrderStatus.pending,
                            totalAmount := total, items := items }
                        rw [hins] at hpres
                        simp only at hpres
                        cases ri with
                        | error e0 =>
                            rw [CreateOrder_of_insert_error hloop hins]
                            constructor
                            · intro p hp
                              rw [hpres.1] at hp
                              exact hstock₁ p hp
                            · intro o ho
                              rw [hpres.2, horders.1] at ho
                              exact h2 o ho
                        | ok pr2 =>
                            cases pr2 with
                            | mk o' tx' =>
                                rw [CreateOrder_of_insert_ok hloop hins]
                                obtain ⟨hpk, ho', htx', hs2⟩ := repoCreateOrder_ok_shape hins
                                constructor
                                · intro p hp
                                  simp only at hp
                                  rw [hpres.1] at hp
                                  exact hstock₁ p hp
                                · intro o ho
                                  simp only at ho
                                  rcases List.mem_append.mp ho with ho0 | ho0
                                  · rw [hpres.2, horders.1] at ho0
                                    exact h2 o ho0
                                  · rw [htx'] at ho0
                                    simp only [List.nil_append] at ho0
                                    rw [List.mem_singleton] at ho0
                                    subst ho0
                                    rw [ho']
                                    intro it hit
                                    simp only at hit
                                    obtain ⟨it0, hit0, k, _, heq⟩ :=
                                      assignItemIds_fields "" items s₁.nextId it hit
                                    obtain ⟨newIts, hacc, _, _, hspec⟩ :=
                                      createOrderLoop_ok_spec l s [] 0 items total s₁ hloop
                                    rw [hacc] at hit0
                                    simp only [List.nil_append] at hit0
                                    obtain ⟨_, _, ⟨rq, hrq, hq⟩, _⟩ := hspec it0 hit0
                                    have := (hpos rq hrq).2
                                    rw [heq]
                                    simp only
                                    omega
      · rw [if_neg hb]
        exact ⟨h1, h2⟩
  | cancelOrder oid u =>
      cases hg : repositoryImpl.GetOrderByID s oid with
      | error e => simp only [step, serviceImpl.CancelOrder, hg]; exact ⟨h1, h2⟩
      | ok order =>
          simp only [step, serviceImpl.CancelOrder, hg]
          by_cases ho : (order.userId != u) = true
          · rw [if_pos ho]
            exact ⟨h1, h2⟩
          · rw [if_neg ho]
            by_cases hp : (order.status != OrderStatus.pending) = true
            · rw [if_pos hp]
              exact ⟨h1, h2⟩
            · rw [if_neg hp]
              obtain ⟨o, hfind, horder⟩ := GetOrderByID_ok_shape hg
              have hqty : ∀ it ∈ order.items, 0 ≤ it.quantity := by
                intro it hit
                rw [horder] at hit
                simp only [joinedItems] at hit
                have hmem := List.mem_of_mem_filter hit
                exact h2 o (List.mem_of_find?_eq_some hfind) it hmem
              cases hus : repositoryImpl.UpdateOrderStatus s oid OrderStatus.cancelled with
              | error e =>
                  simp only [repositoryImpl.WithTransaction, serviceImpl.cancelOrderTx, hus]
                  exact ⟨h1, h2⟩
              | ok s1 =>
                  have hs1 := UpdateOrderStatus_ok_shape hus
                  have hs1p : s1.products = s.products := by rw [hs1]
                  have hs1inv : stocksNonneg s1 ∧ ordersItemsNonneg s1 := by
                    constructor
                    · intro p hp0
                      rw [hs1p] at hp0
                      exact h1 p hp0
                    · intro o0 ho0
                      rw [hs1] at ho0
                      simp only at ho0
                      obtain ⟨o1, ho1, ho1e⟩ := List.mem_map.mp ho0
                      intro it hit
                      have hitems : o0.items = o1.items := by
                        by_cases hb0 : (o1.id == oid) = true
                        · rw [← ho1e]; simp [hb0]
                        · rw [← ho1e]; simp [hb0]
                      rw [hitems] at hit
                      exact h2 o1 ho1 it hit
                  cases hr : serviceImpl.restoreLoop order.items s1 with
                  | mk r2 s2 =>
                      have hintm : stocksNonneg s2 ∧ ordersItemsNonneg s2 := by
                        constructor
                        · intro p hp0
                          have := restoreLoop_stocksNonneg order.items s1 hs1inv.1
                            (by intro it hit; exact hqty it hit)
                          rw [hr] at this
                          exact this p hp0
                        · have horders := restoreLoop_preserves_orders order.items s1
                          rw [hr] at horders
                          intro o0 ho0
                          rw [horders.1] at ho0
                          exact hs1inv.2 o0 ho0
                      cases r2 with
                      | error e =>
                          simp only [repositoryImpl.WithTransaction, serviceImpl.cancelOrderTx, hus, hr]
                          exact hintm
                      | ok un =>
                          simp only [repositoryImpl.WithTransaction, serviceImpl.cancelOrderTx, hus, hr]
                          refine ⟨by intro p hp0; exact hintm.1 p hp0, ?_⟩
                          intro o0 ho0
                          simp only [List.append_nil] at ho0
                          exact hintm.2 o0 ho0

theorem run_preserves_inv (calls : List Call) :
    ∀ (s : Store), stocksNonneg s → ordersItemsNonneg s →
      stocksNonneg (run s calls) ∧ ordersItemsNonneg (run s calls) := by
  induction calls with
  | nil => intro s h1 h2; exact ⟨h1, h2⟩
  | cons c cs ih =>
      intro s h1 h2
      obtain ⟨h1a, h2a⟩ := step_preserves_inv s c h1 h2
      exact ih (step s c) h1a h2a

theorem serviceUpdateProduct_preserves_orders (s : Store) (pid : String)
    (req : CreateProductRequest) :
    ((serviceImpl.UpdateProduct s pid req).2).orders = s.orders := by
  cases hu : repositoryImpl.UpdateProduct s
      { id := pid, name := req.name, description := req.description,
        price := req.price, stockQuantity := req.stockQuantity } with
  | error e => simp only [serviceImpl.UpdateProduct, hu]
  | ok s' =>
      simp only [serviceImpl.UpdateProduct, hu]
      unfold repositoryImpl.UpdateProduct at hu
      by_cases ha : (s.products.any (fun q => q.id == pid)) = true
      · simp only [ha, if_true] at hu
        injection hu with h0
        rw [← h0]
      · simp only [ha] at hu
        rw [if_neg (by simp [ha])] at hu
        cases hu

/-! ## Claim theorems -/

/-- C4: starting from a store whose product stocks are all non-negative
(and whose persisted order items have the non-negative quantities the data
model guarantees), every sequence of CreateOrder / CancelOrder calls
executed one at a time keeps every product's stock_quantity at or above 0
after every call. -/
theorem C4_stock_nonneg (s : Store) (calls : List Call)
    (h1 : stocksNonneg s) (h2 : ordersItemsNonneg s) :
    stocksNonneg (run s calls) :=
  (run_preserves_inv calls s h1 h2).1

theorem C4_stock_nonneg_witness :
    stocksNonneg demoStore ∧ ordersItemsNonneg demoStore ∧
      stocksNonneg (run demoStore
        [Call.createOrder "u1" ⟨some [⟨"p1", 3⟩]⟩,
         Call.createOrder "u1" ⟨some [⟨"p1", 3⟩]⟩]) :=
  ⟨by decide, by decide,
   C4_stock_nonneg demoStore
     [Call.createOrder "u1" ⟨some [⟨"p1", 3⟩]⟩, Call.createOrder "u1" ⟨some [⟨"p1", 3⟩]⟩]
     (by decide) (by decide)⟩

/-- C6: UpdateStatus on an order whose current status is cancelled or
delivered always fails with the terminal-state error for every requested
target status, leaving the store unchanged; on an order in any non-terminal
status it persists the new status unconditionally, for every target status
including backward moves. -/
theorem C6_update_status_terminal_guard (s : Store) (oid : String) (o : Order)
    (hfind : s.orders.find? (fun o0 => o0.id == oid) = some o) :
    ((o.status = .cancelled ∨ o.status = .delivered) →
      ∀ st : OrderStatus, serviceImpl.UpdateStatus s oid st =
        (.error ⟨.terminalState, "cannot update " ++ statusText o.status ++ " order"⟩, s)) ∧
    ((o.status ≠ .cancelled ∧ o.status ≠ .delivered) →
      ∀ st : OrderStatus, serviceImpl.UpdateStatus s oid st =
        (.ok (), { s with orders := s.orders.map (fun o0 =>
          if o0.id == oid then { o0 with status := st } else o0) })) := by
  have hget : repositoryImpl.GetOrderByID s oid = .ok { o with items := joinedItems s o } := by
    unfold repositoryImpl.GetOrderByID
    rw [hfind]
  have hps := List.find?_some hfind
  have hany : (s.orders.any (fun o0 => o0.id == oid)) = true :=
    List.any_eq_true.mpr ⟨o, List.mem_of_find?_eq_some hfind, hps⟩
  constructor
  · intro hterm st
    simp only [serviceImpl.UpdateStatus, hget]
    rw [if_pos hterm]
  · intro hnterm st
    have hus : repositoryImpl.UpdateOrderStatus s oid st =
        .ok { s with orders := s.orders.map (fun o0 => if o0.id == oid then { o0 with status := st } else o0) } := by
      unfold repositoryImpl.UpdateOrderStatus
      rw [if_pos hany]
    simp only [serviceImpl.UpdateStatus, hget]
    rw [if_neg (fun hc => hc.elim hnterm.1 hnterm.2)]
    simp only [hus]

theorem C6_update_status_terminal_guard_witness :
    demoStatusStore.orders.find? (fun o0 => o0.id == "o3") = some demoDelivered ∧
    serviceImpl.UpdateStatus demoStatusStore "o3" OrderStatus.pending =
      (.error ⟨.terminalState,
        "cannot update " ++ statusText demoDelivered.status ++ " order"⟩, demoStatusStore) :=
  ⟨by decide,
   (C6_update_status_terminal_guard demoStatusStore "o3" demoDelivered (by decide)).1
     (Or.inr rfl) OrderStatus.pending⟩

/-- C7: during CreateOrder, the items are processed in input order; at the
first offending item the whole operation fails — with a NotFound error
naming that product id when the product is absent, and with
InsufficientStock when the fetched product's stock is below the requested
quantity. -/
theorem C7_first_offending_item_error (s : Store) (u : String)
    (pre : List CreateOrderItemRequest) (it : CreateOrderItemRequest)
    (rest : List CreateOrderItemRequest) (acc : List OrderItem) (total : ℚ) (s₁ : Store)
    (hpre : serviceImpl.createOrderLoop pre s [] 0 = (.ok (acc, total), s₁)) :
    (s₁.products.find? (fun p => p.id == it.productId) = none →
      serviceImpl.CreateOrder s u (pre ++ it :: rest) =
        (.error (wrap ("getting product " ++ it.productId) errNotFound), s₁)) ∧
    (∀ p, s₁.products.find? (fun p0 => p0.id == it.productId) = some p →
      p.stockQuantity < it.quantity →
      serviceImpl.CreateOrder s u (pre ++ it :: rest) = (.error errInsufficientStock, s₁)) := by
  constructor
  · intro hnone
    have hget : repositoryImpl.GetProductByID s₁ it.productId = .error errNotFound := by
      unfold repositoryImpl.GetProductByID
      rw [hnone]
    have hloop : serviceImpl.createOrderLoop (pre ++ it :: rest) s [] 0 =
        (.error (wrap ("getting product " ++ it.productId) errNotFound), s₁) := by
      rw [createOrderLoop_append pre (it :: rest) s [] 0 acc total s₁ hpre]
      simp only [serviceImpl.createOrderLoop, hget]
    exact CreateOrder_of_loop_error hloop
  · intro p hsome hlt
    have hget : repositoryImpl.GetProductByID s₁ it.productId = .ok p := by
      unfold repositoryImpl.GetProductByID
      rw [hsome]
    have hloop : serviceImpl.createOrderLoop (pre ++ it :: rest) s [] 0 =
        (.error errInsufficientStock, s₁) := by
      rw [createOrderLoop_append pre (it :: rest) s [] 0 acc total s₁ hpre]
      simp only [serviceImpl.createOrderLoop, hget]
      rw [if_pos hlt]
    exact CreateOrder_of_loop_error hloop

theorem C7_first_offending_item_error_witness :
    serviceImpl.createOrderLoop [⟨"p1", 2⟩] demoStore [] 0 =
      (.ok ([demoItemPre], 20), demoStoreMid) ∧
    demoStoreMid.products.find? (fun p => p.id == "p2") = none ∧
    serviceImpl.CreateOrder demoStore "u1" ([⟨"p1", 2⟩] ++ [⟨"p2", 1⟩]) =
      (.error (wrap ("getting product " ++ "p2") errNotFound), demoStoreMid) := by
  have hpre : serviceImpl.createOrderLoop [⟨"p1", 2⟩] demoStore [] 0 =
      (.ok ([demoItemPre], 20), demoStoreMid) := by
    simp [serviceImpl.createOrderLoop, repositoryImpl.GetProductByID,
      repositoryImpl.UpdateProduct, demoStore, demoStoreMid, demoProduct, demoItemPre]
    norm_num
  exact ⟨hpre, by decide,
    (C7_first_offending_item_error demoStore "u1" [⟨"p1", 2⟩] ⟨"p2", 1⟩ [] [demoItemPre]
      20 demoStoreMid hpre).1 (by decide)⟩

/-- C3: every order successfully created by CreateOrder stores
total_amount equal to the sum of quantity * unit_price over its items,
where each item's unit_price is the product's catalog price read during the
call; later catalog edits (serviceImpl.UpdateProduct) leave the stored
order rows — total_amount and unit_price included — unchanged. -/
theorem C3_total_amount_consistency (s : Store) (u : String)
    (req : List CreateOrderItemRequest)
    (h : (serviceImpl.CreateOrder s u req).1 = .ok ()) :
    ∃ o, (serviceImpl.CreateOrder s u req).2.orders = s.orders ++ [o] ∧
      o.totalAmount = sumItems o.items ∧
      (∀ it ∈ o.items, ∃ p, s.products.find? (fun q => q.id == it.productId) = some p ∧
        it.unitPrice = p.price) ∧
      (∀ (pid : String) (req' : CreateProductRequest),
        ((serviceImpl.UpdateProduct (serviceImpl.CreateOrder s u req).2 pid req').2).orders
          = (serviceImpl.CreateOrder s u req).2.orders) := by
  cases hloop : serviceImpl.createOrderLoop req s [] 0 with
  | mk r s₁ =>
      cases r with
      | error e =>
          rw [CreateOrder_of_loop_error hloop] at h
          simp at h
      | ok pr =>
          cases pr with
          | mk items total =>
              have horders := createOrderLoop_preserves_orders req s [] 0
              rw [hloop] at horders
              obtain ⟨newIts, hacc, htot, _, hspec⟩ :=
                createOrderLoop_ok_spec req s [] 0 items total s₁ hloop
              simp only [List.nil_append] at hacc
              subst hacc
              cases hins : repositoryImpl.CreateOrder s₁ ⟨[]⟩
                  { id := "", userId := u, status := .pending,
                    totalAmount := total, items := items } with
              | mk ri s2 =>
                  cases ri with
                  | error e0 =>
                      rw [CreateOrder_of_insert_error hloop hins] at h
                      simp at h
                  | ok pr2 =>
                      cases pr2 with
                      | mk o' tx' =>
                          rw [CreateOrder_of_insert_ok hloop hins]
                          obtain ⟨hpk, ho', htx', hs2⟩ := repoCreateOrder_ok_shape hins
                          refine ⟨o', ?_, ?_, ?_, ?_⟩
                          · simp only
                            rw [htx', hs2]
                            simp only [List.nil_append]
                            rw [horders.1]
                          · rw [ho']
                            simp only
                            rw [assignItemIds_sumItems "" items s₁.nextId, htot, zero_add]
                          · rw [ho']
                            intro it hit
                            simp only at hit
                            obtain ⟨it0, hit0, k, _, heq⟩ :=
                              assignItemIds_fields "" items s₁.nextId it hit
                            obtain ⟨_, _, _, p, hp, hup⟩ := hspec it0 hit0
                            subst heq
                            exact ⟨p, hp, hup⟩
                          · intro pid req'
                            exact serviceUpdateProduct_preserves_orders _ pid req'

theorem C3_total_amount_consistency_witness :
    (serviceImpl.CreateOrder demoStore "u1" [⟨"p1", 3⟩]).1 = .ok () ∧
    (∃ o, (serviceImpl.CreateOrder demoStore "u1" [⟨"p1", 3⟩]).2.orders
        = demoStore.orders ++ [o] ∧
      o.totalAmount = sumItems o.items ∧
      (∀ it ∈ o.items, ∃ p, demoStore.products.find? (fun q => q.id == it.productId) = some p ∧
        it.unitPrice = p.price) ∧
      (∀ (pid : String) (req' : CreateProductRequest),
        ((serviceImpl.UpdateProduct (serviceImpl.CreateOrder demoStore "u1" [⟨"p1", 3⟩]).2
          pid req').2).orders
          = (serviceImpl.CreateOrder demoStore "u1" [⟨"p1", 3⟩]).2.orders)) :=
  ⟨rfl, C3_total_amount_consistency demoStore "u1" [⟨"p1", 3⟩] rfl⟩

/-- C10 (implicit): CreateOrder never assigns an id to the order it builds —
the order row is inserted with the empty string as its id — while each order
item receives a freshly generated (non-empty, pairwise-distinct) id and an
order_id equal to that same empty order id. -/
theorem C10_order_id_empty_items_fresh (s : Store) (u : String)
    (req : List CreateOrderItemRequest)
    (h : (serviceImpl.CreateOrder s u req).1 = .ok ()) :
    ∃ o, (serviceImpl.CreateOrder s u req).2.orders = s.orders ++ [o] ∧
      o.id = "" ∧
      (∀ it ∈ o.items, it.orderId = o.id ∧ it.id ≠ "") ∧
      (o.items.map (fun it => it.id)).Nodup := by
  cases hloop : serviceImpl.createOrderLoop req s [] 0 with
  | mk r s₁ =>
      cases r with
      | error e =>
          rw [CreateOrder_of_loop_error hloop] at h
          simp at h
      | ok pr =>
          cases pr with
          | mk items total =>
              have horders := createOrderLoop_preserves_orders req s [] 0
              rw [hloop] at horders
              cases hins : repositoryImpl.CreateOrder s₁ ⟨[]⟩
                  { id := "", userId := u, status := .pending,
                    totalAmount := total, items := items } with
              | mk ri s2 =>
                  cases ri with
                  | error e0 =>
                      rw [CreateOrder_of_insert_error hloop hins] at h
                      simp at h
                  | ok pr2 =>
                      cases pr2 with
                      | mk o' tx' =>
                          rw [CreateOrder_of_insert_ok hloop hins]
                          obtain ⟨hpk, ho', htx', hs2⟩ := repoCreateOrder_ok_shape hins
                          refine ⟨o', ?_, ?_, ?_, ?_⟩
                          · simp only
                            rw [htx', hs2]
                            simp only [List.nil_append]
                            rw [horders.1]
                          · rw [ho']
                          · rw [ho']
                            intro it hit
                            simp only at hit ⊢
                            obtain ⟨it0, _, k, _, heq⟩ :=
                              assignItemIds_fields "" items s₁.nextId it hit
                            subst heq
                            exact ⟨rfl, generateID_ne_empty k⟩
                          · rw [ho']
                            simp only
                            exact assignItemIds_map_id "" items s₁.nextId

theorem C10_order_id_empty_items_fresh_witness :
    (serviceImpl.CreateOrder demoStore "u1" [⟨"p1", 3⟩]).1 = .ok () ∧
    (∃ o, (serviceImpl.CreateOrder demoStore "u1" [⟨"p1", 3⟩]).2.orders
        = demoStore.orders ++ [o] ∧
      o.id = "" ∧
      (∀ it ∈ o.items, it.orderId = o.id ∧ it.id ≠ "") ∧
      (o.items.map (fun it => it.id)).Nodup) :=
  ⟨rfl, C10_order_id_empty_items_fresh demoStore "u1" [⟨"p1", 3⟩] rfl⟩

/-- C8 counterexample: CreateOrder does not return the created Order to the
caller.  Two successful calls whose created orders differ (total 30 at
catalog price 10 versus total 75 at catalog price 25) return the very same
success value — the service's result type carries no Order. -/
theorem C8_create_order_returns_no_order_value :
    (serviceImpl.CreateOrder demoStore "u1" [⟨"p1", 3⟩]).1
      = (serviceImpl.CreateOrder demoStorePricier "u1" [⟨"p1", 3⟩]).1 ∧
    ((serviceImpl.CreateOrder demoStore "u1" [⟨"p1", 3⟩]).2.orders.map
      (fun o => o.totalAmount)) = [30] ∧
    ((serviceImpl.CreateOrder demoStorePricier "u1" [⟨"p1", 3⟩]).2.orders.map
      (fun o => o.totalAmount)) = [75] := by
  refine ⟨rfl, ?_, ?_⟩ <;>
    · simp [serviceImpl.CreateOrder, serviceImpl.createOrderLoop,
        repositoryImpl.WithTransaction, repositoryImpl.CreateOrder,
        repositoryImpl.createOrderItemsLoop, allOrderItems,
        repositoryImpl.GetProductByID, repositoryImpl.UpdateProduct, assignItemIds,
        demoStore, demoStorePricier, demoProduct]
      norm_num

/-- C8 amended: on success CreateOrder returns only a success indication
(unit, no Order value) and persists the created order — appended to the
ledger with status pending, the caller's user id and the accumulated
total — while on failure no order row is persisted and it propagates the
first error encountered: the failing item's error when the per-item loop
fails, otherwise the order INSERT's error wrapped with "creating order"
(e.g. the duplicate-key violation the constant empty order id causes once
any order row exists). -/
theorem C8_amended_create_order_result (s : Store) (u : String)
    (req : List CreateOrderItemRequest) :
    ((serviceImpl.CreateOrder s u req).1 = .ok () →
      ∃ o, (serviceImpl.CreateOrder s u req).2.orders = s.orders ++ [o] ∧
        o.status = .pending ∧ o.userId = u ∧ o.totalAmount = sumItems o.items) ∧
    (∀ e, (serviceImpl.CreateOrder s u req).1 = .error e →
      (serviceImpl.CreateOrder s u req).2.orders = s.orders ∧
      ((serviceImpl.createOrderLoop req s [] 0).1 = .error e ∨
        ∃ items total s₁,
          serviceImpl.createOrderLoop req s [] 0 = (.ok (items, total), s₁) ∧
          ∃ e0, (repositoryImpl.CreateOrder s₁ ⟨[]⟩
              { id := "", userId := u, status := .pending,
                totalAmount := total, items := items }).1 = .error e0 ∧
            e = wrap "creating order" e0)) := by
  cases hloop : serviceImpl.createOrderLoop req s [] 0 with
  | mk r s₁ =>
      have horders := createOrderLoop_preserves_orders req s [] 0
      rw [hloop] at horders
      cases r with
      | error e0 =>
          constructor
          · intro h
            rw [CreateOrder_of_loop_error hloop] at h
            simp at h
          · intro e he
            rw [CreateOrder_of_loop_error hloop] at he
            simp only at he
            rw [CreateOrder_of_loop_error hloop]
            constructor
            · exact horders.1
            · left
              simpa using he
      | ok pr =>
          cases pr with
          | mk items total =>
              cases hins : repositoryImpl.CreateOrder s₁ ⟨[]⟩
                  { id := "", userId := u, status := .pending,
                    totalAmount := total, items := items } with
              | mk ri s2 =>
                  have hpres := repoCreateOrder_preserves s₁ ⟨[]⟩
                    { id := "", userId := u, status := .pending,
                      totalAmount := total, items := items }
                  rw [hins] at hpres
                  simp only at hpres
                  cases ri with
                  | error e0 =>
                      constructor
                      · intro h
                        rw [CreateOrder_of_insert_error hloop hins] at h
                        simp at h
                      · intro e he
                        rw [CreateOrder_of_insert_error hloop hins] at he
                        simp only at he
                        rw [CreateOrder_of_insert_error hloop hins]
                        constructor
                        · simp only
                          rw [hpres.2, horders.1]
                        · right
                          refine ⟨items, total, s₁, rfl, e0, by rw [hins], ?_⟩
                          injection he with he0
                          rw [he0]
                  | ok pr2 =>
                      cases pr2 with
                      | mk o' tx' =>
                          constructor
                          · intro _
                            rw [CreateOrder_of_insert_ok hloop hins]
                            obtain ⟨hpk, ho', htx', hs2⟩ := repoCreateOrder_ok_shape hins
                            obtain ⟨newIts, hacc, htot, _, _⟩ :=
                              createOrderLoop_ok_spec req s [] 0 items total s₁ hloop
                            simp only [List.nil_append] at hacc
                            subst hacc
                            refine ⟨o', ?_, ?_, ?_, ?_⟩
                            · simp only
                              rw [htx', hs2]
                              simp only [List.nil_append]
                              rw [horders.1]
                            · rw [ho']
                            · rw [ho']
                            · rw [ho']
                              simp only
                              rw [assignItemIds_sumItems "" items s₁.nextId, htot, zero_add]
                          · intro e he
                            rw [CreateOrder_of_insert_ok hloop hins] at he
                            simp at he

theorem C8_amended_create_order_result_witness :
    ((serviceImpl.CreateOrder demoStore "u1" [⟨"p1", 3⟩]).1 = .ok () ∧
      (∃ o, (serviceImpl.CreateOrder demoStore "u1" [⟨"p1", 3⟩]).2.orders
          = demoStore.orders ++ [o] ∧
        o.status = .pending ∧ o.userId = "u1" ∧ o.totalAmount = sumItems o.items)) ∧
    ((serviceImpl.CreateOrder demoStoreTaken "u1" [⟨"p1", 3⟩]).1
        = .error (wrap "creating order" (wrap "create order" errDuplicateKey)) ∧
      ((serviceImpl.CreateOrder demoStoreTaken "u1" [⟨"p1", 3⟩]).2.orders
          = demoStoreTaken.orders ∧
        ((serviceImpl.createOrderLoop [⟨"p1", 3⟩] demoStoreTaken [] 0).1
            = .error (wrap "creating order" (wrap "create order" errDuplicateKey)) ∨
          ∃ items total s₁,
            serviceImpl.createOrderLoop [⟨"p1", 3⟩] demoStoreTaken [] 0
              = (.ok (items, total), s₁) ∧
            ∃ e0, (repositoryImpl.CreateOrder s₁ ⟨[]⟩
                { id := "", userId := "u1", status := .pending,
                  totalAmount := total, items := items }).1 = .error e0 ∧
              wrap "creating order" (wrap "create order" errDuplicateKey)
                = wrap "creating order" e0))) :=
  ⟨⟨rfl, (C8_amended_create_order_result demoStore "u1" [⟨"p1", 3⟩]).1 rfl⟩,
   ⟨rfl, (C8_amended_create_order_result demoStoreTaken "u1" [⟨"p1", 3⟩]).2
     (wrap "creating order" (wrap "create order" errDuplicateKey)) rfl⟩⟩

/-- C9 counterexample: a CreateOrder request whose items field is present
but empty passes the gin binding validation (the `required` rule only
rejects a nil slice) and succeeds, creating an order row with no items and
total 0 — it does not fail with a ValidationError. -/
theorem C9_empty_items_accepted :
    bindCreateOrder ⟨some []⟩ = true ∧
    (handlerImpl.CreateOrder demoStore "u1" ⟨some []⟩).1 = .ok () ∧
    (handlerImpl.CreateOrder demoStore "u1" ⟨some []⟩).2.orders
      = [{ id := "", userId := "u1", status := .pending, totalAmount := 0, items := [] }] ∧
    (handlerImpl.CreateOrder demoStore "u1" ⟨some []⟩).2.products = demoStore.products :=
  ⟨rfl, rfl, rfl, rfl⟩

/-- C9 amended: a CreateOrder request with an absent (nil) items list fails
with the ValidationError kind (pkg.ErrInvalidInput), creating no order and
changing no stock, and likewise any item with non-positive quantity; an
items list that is present but empty, however, passes validation — never a
ValidationError: at a store holding no order row with the constant empty
id it succeeds and creates an order with no items and total 0, while at a
store already holding one the INSERT hits the orders primary key and the
call fails with the wrapped duplicate-key error, changing nothing. -/
theorem C9_amended_validation (s : Store) (u : String) :
    (handlerImpl.CreateOrder s u ⟨none⟩ = (.error errInvalidInput, s)) ∧
    (∀ l : List CreateOrderItemRequest, (∃ rq ∈ l, rq.quantity ≤ 0) →
      handlerImpl.CreateOrder s u ⟨some l⟩ = (.error errInvalidInput, s)) ∧
    ((s.orders.any (fun o => o.id == "")) = false →
      handlerImpl.CreateOrder s u ⟨some []⟩ =
        (.ok (), { s with orders := s.orders ++
          [{ id := "", userId := u, status := .pending, totalAmount := 0, items := [] }] })) ∧
    ((s.orders.any (fun o => o.id == "")) = true →
      handlerImpl.CreateOrder s u ⟨some []⟩ =
        (.error (wrap "creating order" (wrap "create order" errDuplicateKey)), s)) := by
  have hbind : bindCreateOrder ⟨some []⟩ = true := rfl
  refine ⟨rfl, ?_, ?_, ?_⟩
  · intro l hex
    obtain ⟨rq, hrq, hq⟩ := hex
    have hb : bindCreateOrder ⟨some l⟩ = false := by
      simp only [bindCreateOrder]
      rw [List.all_eq_false]
      exact ⟨rq, hrq, by simp [hq, not_lt.mpr hq]⟩
    simp [handlerImpl.CreateOrder, hb]
  · intro hfree
    simp only [handlerImpl.CreateOrder, hbind, if_true, Option.getD]
    simp only [serviceImpl.CreateOrder, repositoryImpl.WithTransaction,
      serviceImpl.createOrderLoop, repositoryImpl.CreateOrder,
      repositoryImpl.createOrderItemsLoop, List.append_nil]
    rw [if_neg (by simp [hfree])]
    simp
  · intro htaken
    simp only [handlerImpl.CreateOrder, hbind, if_true, Option.getD]
    simp only [serviceImpl.CreateOrder, repositoryImpl.WithTransaction,
      serviceImpl.createOrderLoop, repositoryImpl.CreateOrder,
      repositoryImpl.createOrderItemsLoop, List.append_nil]
    rw [if_pos (by simpa using htaken)]

theorem C9_amended_validation_witness :
    (∃ rq ∈ [(⟨"p1", 0⟩ : CreateOrderItemRequest)], rq.quantity ≤ 0) ∧
    handlerImpl.CreateOrder demoStore "u1" ⟨some [⟨"p1", 0⟩]⟩
      = (.error errInvalidInput, demoStore) ∧
    (demoStore.orders.any (fun o => o.id == "")) = false ∧
    handlerImpl.CreateOrder demoStore "u1" ⟨some []⟩ =
      (.ok (), { demoStore with orders := demoStore.orders ++
        [{ id := "", userId := "u1", status := .pending, totalAmount := 0, items := [] }] }) ∧
    (demoStoreTaken.orders.any (fun o => o.id == "")) = true ∧
    handlerImpl.CreateOrder demoStoreTaken "u1" ⟨some []⟩ =
      (.error (wrap "creating order" (wrap "create order" errDuplicateKey)), demoStoreTaken) :=
  ⟨by decide,
   (C9_amended_validation demoStore "u1").2.1 [⟨"p1", 0⟩] (by decide),
   by decide,
   (C9_amended_validation demoStore "u1").2.2.1 (by decide),
   by decide,
   (C9_amended_validation demoStoreTaken "u1").2.2.2 (by decide)⟩

/-- C1 (claim violated by the code): a CreateOrder over [(p1, 2), (p2, 1)]
from a catalog holding only p1 (stock 5) fails with NotFound on p2, yet the
post-state is not the pre-state: p1's stock decrement to 3 persists (the
product update ran on the pooled connection, outside the transaction) even
though no order row was created. -/
theorem C1_createOrder_failure_leaves_partial_stock :
    (serviceImpl.CreateOrder demoStore "u1" [⟨"p1", 2⟩, ⟨"p2", 1⟩]).1
      = .error (wrap ("getting product " ++ "p2") errNotFound) ∧
    (serviceImpl.CreateOrder demoStore "u1" [⟨"p1", 2⟩, ⟨"p2", 1⟩]).2.orders = [] ∧
    ((serviceImpl.CreateOrder demoStore "u1" [⟨"p1", 2⟩, ⟨"p2", 1⟩]).2.products.map
      (fun p => p.stockQuantity)) = [3] ∧
    (serviceImpl.CreateOrder demoStore "u1" [⟨"p1", 2⟩, ⟨"p2", 1⟩]).2 ≠ demoStore := by
  exact ⟨rfl, by decide, by decide, by decide⟩

/-- C2 (claim violated by the code): when the stock-restoration loop of the
cancellation closure hits a missing product (p2 deleted after the order was
fetched), the unit of work reports the error and rolls back only the empty
transaction buffer: the cancelled status written for o1 and the +2 stock
restoration of p1 (from 7 to 9) were pool writes and persist — the order
does not remain pending and the partial increment is not undone. -/
theorem C2_cancel_rollback_does_not_restore :
    (repositoryImpl.WithTransaction demoCancelStore
      (serviceImpl.cancelOrderTx "o1" demoOrder)).1
      = .error (wrap "getting product" errNotFound) ∧
    ((repositoryImpl.WithTransaction demoCancelStore
      (serviceImpl.cancelOrderTx "o1" demoOrder)).2.orders.map (fun o => o.status))
      = [.cancelled] ∧
    ((repositoryImpl.WithTransaction demoCancelStore
      (serviceImpl.cancelOrderTx "o1" demoOrder)).2.products.map (fun p => p.stockQuantity))
      = [9] := by
  exact ⟨rfl, by decide, by decide⟩

/-- C5: cancelling a pending order one owns succeeds, marks the order row
cancelled, and adds back to each referenced product's stock exactly the
quantity recorded in that order's item (products not referenced are
untouched); a second CancelOrder on the same order then fails with
OrderNotPending and changes nothing.  The items' product ids are pairwise
distinct, as the order_items UNIQUE(order_id, product_id) constraint
guarantees. -/
theorem C5_cancel_restores_stock (s : Store) (oid u : String) (o : Order)
    (hfind : s.orders.find? (fun o0 => o0.id == oid) = some o)
    (hown : o.userId = u) (hpend : o.status = OrderStatus.pending)
    (hnodup : (o.items.map (fun it => it.productId)).Nodup) :
    (serviceImpl.CancelOrder s oid u).1 = .ok () ∧
    ((serviceImpl.CancelOrder s oid u).2.orders.find? (fun o0 => o0.id == oid)
      = some { o with status := .cancelled }) ∧
    (∀ it ∈ joinedItems s o,
      ∃ p, s.products.find? (fun q => q.id == it.productId) = some p ∧
        (serviceImpl.CancelOrder s oid u).2.products.find? (fun q => q.id == it.productId)
          = some { p with stockQuantity := p.stockQuantity + it.quantity }) ∧
    (∀ pid : String, (∀ it ∈ joinedItems s o, it.productId ≠ pid) →
      (serviceImpl.CancelOrder s oid u).2.products.find? (fun q => q.id == pid)
        = s.products.find? (fun q => q.id == pid)) ∧
    (serviceImpl.CancelOrder (serviceImpl.CancelOrder s oid u).2 oid u
      = (.error errOrderNotPending, (serviceImpl.CancelOrder s oid u).2)) := by
  have hps := List.find?_some hfind
  have hany : (s.orders.any (fun o0 => o0.id == oid)) = true :=
    List.any_eq_true.mpr ⟨o, List.mem_of_find?_eq_some hfind, hps⟩
  have hget : repositoryImpl.GetOrderByID s oid = .ok { o with items := joinedItems s o } := by
    unfold repositoryImpl.GetOrderByID
    rw [hfind]
  have hus : repositoryImpl.UpdateOrderStatus s oid OrderStatus.cancelled =
      .ok { s with orders := s.orders.map (fun o0 => if o0.id == oid then { o0 with status := OrderStatus.cancelled } else o0) } := by
    unfold repositoryImpl.UpdateOrderStatus
    rw [if_pos hany]
  set s1 : Store := { s with orders := s.orders.map (fun o0 =>
    if o0.id == oid then { o0 with status := OrderStatus.cancelled } else o0) } with hs1
  have hex : ∀ it ∈ joinedItems s o, s1.products.any (fun p => p.id == it.productId) = true := by
    intro it hit
    simp only [joinedItems, List.mem_filter] at hit
    exact hit.2
  have hjnd : ((joinedItems s o).map (fun it => it.productId)).Nodup := by
    have hsub : (joinedItems s o).Sublist o.items := by
      simp only [joinedItems]
      exact List.filter_sublist o.items
    exact (hsub.map (fun it => it.productId)).nodup hnodup
  obtain ⟨heffok, heffitems, heffuntouched⟩ := restoreLoop_effect (joinedItems s o) s1 hex hjnd
  cases hr : serviceImpl.restoreLoop (joinedItems s o) s1 with
  | mk r2 s2 =>
      rw [hr] at heffok heffitems heffuntouched
      simp only at heffok heffitems heffuntouched
      subst heffok
      have hcancel : serviceImpl.CancelOrder s oid u =
          (.ok (), { s2 with orders := s2.orders ++ [] }) := by
        simp only [serviceImpl.CancelOrder, hget]
        rw [if_neg (by simp [hown])]
        rw [if_neg (by simp [hpend])]
        simp only [repositoryImpl.WithTransaction, serviceImpl.cancelOrderTx, hus, hr]
      have horders2 := restoreLoop_preserves_orders (joinedItems s o) s1
      rw [hr] at horders2
      simp only at horders2
      have hord : (serviceImpl.CancelOrder s oid u).2.orders.find? (fun o0 => o0.id == oid)
          = some { o with status := OrderStatus.cancelled } := by
        rw [hcancel]
        simp only [List.append_nil]
        rw [horders2.1]
        rw [find?_map_orders _ (setStatusRow_id oid OrderStatus.cancelled) s.orders oid, hfind]
        simp only [Option.map, hps]
        simp
      refine ⟨by rw [hcancel], hord, ?_, ?_, ?_⟩
      · intro it hit
        obtain ⟨p, hp, hfin⟩ := heffitems it hit
        refine ⟨p, by simpa [hs1] using hp, ?_⟩
        rw [hcancel]
        exact hfin
      · intro pid hne
        have h0 := heffuntouched pid hne
        rw [hcancel]
        simpa [hs1] using h0
      · rw [hcancel] at hord ⊢
        have hget2 : repositoryImpl.GetOrderByID
            ({ s2 with orders := s2.orders ++ [] } : Store) oid
            = .ok { ({ o with status := OrderStatus.cancelled } : Order) with
                    items := joinedItems ({ s2 with orders := s2.orders ++ [] } : Store)
                      { o with status := OrderStatus.cancelled } } := by
          unfold repositoryImpl.GetOrderByID
          rw [hord]
        simp only [serviceImpl.CancelOrder, hget2]
        rw [if_neg (by simp [hown])]
        rw [if_pos (by simp)]

theorem C5_cancel_restores_stock_witness :
    demoCancelStore2.orders.find? (fun o0 => o0.id == "o2") = some demoOrder2 ∧
    demoOrder2.userId = "u1" ∧
    demoOrder2.status = OrderStatus.pending ∧
    (demoOrder2.items.map (fun it => it.productId)).Nodup ∧
    ((serviceImpl.CancelOrder demoCancelStore2 "o2" "u1").1 = .ok () ∧
      ((serviceImpl.CancelOrder demoCancelStore2 "o2" "u1").2.orders.find?
          (fun o0 => o0.id == "o2")
        = some { demoOrder2 with status := .cancelled }) ∧
      (∀ it ∈ joinedItems demoCancelStore2 demoOrder2,
        ∃ p, demoCancelStore2.products.find? (fun q => q.id == it.productId) = some p ∧
          (serviceImpl.CancelOrder demoCancelStore2 "o2" "u1").2.products.find?
              (fun q => q.id == it.productId)
            = some { p with stockQuantity := p.stockQuantity + it.quantity }) ∧
      (∀ pid : String,
        (∀ it ∈ joinedItems demoCancelStore2 demoOrder2, it.productId ≠ pid) →
        (serviceImpl.CancelOrder demoCancelStore2 "o2" "u1").2.products.find?
            (fun q => q.id == pid)
          = demoCancelStore2.products.find? (fun q => q.id == pid)) ∧
      (serviceImpl.CancelOrder (serviceImpl.CancelOrder demoCancelStore2 "o2" "u1").2 "o2" "u1"
        = (.error errOrderNotPending,
           (serviceImpl.CancelOrder demoCancelStore2 "o2" "u1").2))) :=
  ⟨by decide, rfl, rfl, by decide,
   C5_cancel_restores_stock demoCancelStore2 "o2" "u1" demoOrder2
     (by decide) rfl rfl (by decide)⟩

end InstaShop
